import Mathlib

/-!
Shallow embedding, in Lean, of the behaviour of the bdfz automation scripts
(`ipmenu.py`, `bjeea_watch.py`, `attendance_script_robust.py`, `saa.py`),
together with theorems settling the behavioural claims about them.

Modelling conventions used throughout:
* network calls, web-driver calls and other external effects are passed in
  as explicit inputs (oracles) to the embedded functions;
* wall-clock sleeps are recorded as lists of slept durations in the result;
* Python `int(...)` conversions that may fail are modelled by `Option Int`
  fields, where `none` stands for a missing or non-integer raw value
  (every use site in the sources performs the identical conversion and
  skips the item on failure);
* Python sets are modelled by lists, used only through membership.
-/

namespace Bdfz

/-! ### ipmenu.py — IP history tracker (`IPHistoryTracker`) -/

/-- One entry of the ipmenu IP-history log (`ipmenu.py`, `IPHistoryEntry`).
The Python `timestamp` is a float seconds value; it is modelled as a `Nat`
since no claim depends on its arithmetic. -/
structure IPHistoryEntry where
  timestamp : Nat
  ip : String
  country : Option String
  asn : Option String
  isp : Option String
  connection_type : String
deriving DecidableEq, Repr

/-- Python list slicing `xs[-n:]` for a non-negative `n`.  Note the Python
quirk: for `n = 0` the slice `xs[-0:]` is `xs[0:]`, i.e. the whole list. -/
def pySliceLast (n : Nat) (xs : List α) : List α :=
  if n = 0 then xs else xs.drop (xs.length - n)

/-- `ipmenu.py`, `IPHistoryTracker.add_entry` (lines 201-221): skip when the
new ip equals the last recorded ip, otherwise append the entry and truncate
the history to the last `maxEntries` entries when it grew beyond the bound.
The construction of the entry from the arguments (timestamp, country, ...)
is modelled by taking the fully built entry as input. -/
def add_entry (maxEntries : Nat) (history : List IPHistoryEntry)
    (e : IPHistoryEntry) : List IPHistoryEntry :=
  if history.getLast?.map IPHistoryEntry.ip = some e.ip then history
  else
    let h := history ++ [e]
    if maxEntries < h.length then pySliceLast maxEntries h else h

/-- A sequence of `add_entry` calls, applied in order. -/
def add_entries (maxEntries : Nat) (history : List IPHistoryEntry)
    (es : List IPHistoryEntry) : List IPHistoryEntry :=
  es.foldl (add_entry maxEntries) history

/-- The invariant claimed for the in-memory history: bounded by
`maxEntries`, and no two consecutive entries share the same ip. -/
def HistoryInv (maxEntries : Nat) (h : List IPHistoryEntry) : Prop :=
  h.length ≤ maxEntries ∧ List.Chain' (fun a b => a.ip ≠ b.ip) h

theorem pySliceLast_suffix (n : Nat) (xs : List α) : pySliceLast n xs <:+ xs := by
  unfold pySliceLast
  split
  · exact List.suffix_refl xs
  · exact List.drop_suffix _ xs

theorem pySliceLast_length_le (n : Nat) (hn : 1 ≤ n) (xs : List α) :
    (pySliceLast n xs).length ≤ n := by
  unfold pySliceLast
  split
  · omega
  · rw [List.length_drop]
    omega

theorem add_entry_inv (maxEntries : Nat) (hpos : 1 ≤ maxEntries)
    (history : List IPHistoryEntry) (e : IPHistoryEntry)
    (hinv : HistoryInv maxEntries history) :
    HistoryInv maxEntries (add_entry maxEntries history e) := by
  obtain ⟨hlen, hchain⟩ := hinv
  unfold add_entry
  split
  · exact ⟨hlen, hchain⟩
  · rename_i hne
    have hchain' : List.Chain' (fun a b => a.ip ≠ b.ip) (history ++ [e]) := by
      rw [List.chain'_append]
      refine ⟨hchain, List.chain'_singleton e, ?_⟩
      intro x hx y hy
      simp only [List.head?_cons, Option.mem_def, Option.some.injEq] at hy
      subst hy
      intro hip
      apply hne
      rw [Option.mem_def] at hx
      rw [hx]
      simp [hip]
    simp only
    split
    · constructor
      · exact pySliceLast_length_le maxEntries hpos _
      · exact hchain'.suffix (pySliceLast_suffix _ _)
    · constructor
      · rename_i hnlt
        omega
      · exact hchain'

theorem add_entries_inv (maxEntries : Nat) (hpos : 1 ≤ maxEntries)
    (es : List IPHistoryEntry) (history : List IPHistoryEntry)
    (hinv : HistoryInv maxEntries history) :
    HistoryInv maxEntries (add_entries maxEntries history es) := by
  induction es generalizing history with
  | nil => exact hinv
  | cons e rest ih =>
    exact ih _ (add_entry_inv maxEntries hpos history e hinv)

/-- **C10.** In `ipmenu.py`'s `IPHistoryTracker`, after any sequence of
`add_entry` calls starting from the fresh (empty) history the in-memory
history holds at most `max_entries` entries and no two consecutive entries
have the same ip; calling `add_entry` with an ip equal to the last entry's
ip leaves the history unchanged.  (Stated for `1 ≤ max_entries`; the class
is only ever instantiated with `max_entries = 100` or the configured
`max_history_entries` default `100`.) -/
theorem ipHistory_bounded_nodup_and_noop (maxEntries : Nat)
    (hpos : 1 ≤ maxEntries) (es : List IPHistoryEntry) :
    HistoryInv maxEntries (add_entries maxEntries [] es) ∧
    (∀ history : List IPHistoryEntry, ∀ e : IPHistoryEntry,
      history.getLast?.map IPHistoryEntry.ip = some e.ip →
      add_entry maxEntries history e = history) := by
  constructor
  · exact add_entries_inv maxEntries hpos es [] (by constructor <;> simp)
  · intro history e hlast
    unfold add_entry
    rw [if_pos hlast]

/-- Evaluation witness for `ipHistory_bounded_nodup_and_noop` at the
constructor's actual bound `max_entries = 100` and two concrete entries. -/
theorem ipHistory_bounded_nodup_and_noop_witness :
    HistoryInv 100 (add_entries 100 []
      [⟨0, "1.2.3.4", none, none, none, "wifi"⟩,
       ⟨5, "5.6.7.8", none, none, none, "wifi"⟩]) ∧
    add_entry 100 [⟨0, "1.2.3.4", none, none, none, "wifi"⟩]
      ⟨9, "1.2.3.4", none, none, none, "ethernet"⟩ =
      [⟨0, "1.2.3.4", none, none, none, "wifi"⟩] := by
  refine ⟨(ipHistory_bounded_nodup_and_noop 100 (by norm_num) _).1, ?_⟩
  exact (ipHistory_bounded_nodup_and_noop 100 (by norm_num) []).2
    [⟨0, "1.2.3.4", none, none, none, "wifi"⟩]
    ⟨9, "1.2.3.4", none, none, none, "ethernet"⟩ rfl

/-! ### ipmenu.py — background quality probe vs. main-thread UI update -/

/-- A network-quality snapshot as produced by
`NetworkQualityMonitor.get_stats` (`ipmenu.py`).  The Python values for
latency and jitter are floats rounded to one decimal; they are abstracted
as integers here since the claims only concern who writes the UI, never
the numeric values. -/
structure QualityStats where
  quality : String
  latency : Int
  jitter : Int
deriving DecidableEq, Repr

/-- The slice of `IPMenuApp` state touched by the quality machinery:
`_quality_last_stats`, the `_quality_dirty` event, and the menu item's
title `item_quality.title` (the menu-bar UI). -/
structure QualityUI where
  lastStats : Option QualityStats
  dirty : Bool
  qualityTitle : String
deriving DecidableEq, Repr

/-- `ipmenu.py`, `IPMenuApp._quality_probe_bg` (lines 1172-1180), as a state
transition.  `probe` is `some stats` when `self.quality_monitor` is set and
`quality_monitor.update()` returned truthy (then `stats = get_stats()`);
`none` covers a missing monitor, a falsy `update()` and the swallowed
exception path.  The body only stores the stats under `_quality_lock` and
sets the `_quality_dirty` event. -/
def quality_probe_bg (probe : Option QualityStats) (s : QualityUI) : QualityUI :=
  match probe with
  | some stats => { s with lastStats := some stats, dirty := true }
  | none => s

/-- `ipmenu.py`, `IPMenuApp.update_quality_display` (lines 1182-1189),
reduced to the title it assigns.  `indicator` is the value of
`quality_monitor.get_indicator()` (or the unknown glyph when the monitor is
absent), passed in as an input. -/
def renderQualityTitle (indicator : String) (stats : Option QualityStats) : String :=
  match stats with
  | none => "Quality: —"
  | some st =>
    if st.quality = "unknown" then "Quality: —"
    else "Quality: " ++ indicator ++ " " ++ toString st.latency ++
      "ms (±" ++ toString st.jitter ++ "ms)"

/-- `ipmenu.py`, the quality fragment of `IPMenuApp.on_tick`
(lines 1357-1366): when the dirty event is set, clear it, read the stats
under the lock, and — when a monitor exists — update the menu item title. -/
def on_tick_quality (hasMonitor : Bool) (indicator : String) (s : QualityUI) : QualityUI :=
  if s.dirty then
    let s1 : QualityUI := { s with dirty := false }
    if hasMonitor then { s1 with qualityTitle := renderQualityTitle indicator s1.lastStats }
    else s1
  else s

/-- **C8.** The background probe `_quality_probe_bg` never mutates the
menu-bar UI: it leaves `item_quality.title` unchanged on every input, and
its whole effect is to store the latest stats and set the dirty event.
The title is changed only by the main-thread `on_tick` callback, and only
after it observes the dirty flag: when the flag is clear `on_tick` leaves
the quality state untouched.  The last clause lifts this to whole traces:
any sequence of background-probe steps leaves the title unchanged. -/
theorem quality_probe_never_touches_ui :
    (∀ probe : Option QualityStats, ∀ s : QualityUI,
      (quality_probe_bg probe s).qualityTitle = s.qualityTitle) ∧
    (∀ stats : QualityStats, ∀ s : QualityUI,
      quality_probe_bg (some stats) s =
        { s with lastStats := some stats, dirty := true }) ∧
    (∀ hasMonitor : Bool, ∀ indicator : String, ∀ s : QualityUI,
      (on_tick_quality hasMonitor indicator s).qualityTitle =
        if s.dirty && hasMonitor then renderQualityTitle indicator s.lastStats
        else s.qualityTitle) ∧
    (∀ probes : List (Option QualityStats), ∀ s : QualityUI,
      (probes.foldl (fun st p => quality_probe_bg p st) s).qualityTitle =
        s.qualityTitle) := by
  refine ⟨?_, ?_, ?_, ?_⟩
  · intro probe s
    cases probe <;> rfl
  · intro stats s
    rfl
  · intro hasMonitor indicator s
    unfold on_tick_quality
    cases hd : s.dirty <;> cases hasMonitor <;> simp [hd]
  · intro probes
    induction probes with
    | nil => intro s; rfl
    | cons p rest ih =>
      intro s
      have h1 : (quality_probe_bg p s).qualityTitle = s.qualityTitle := by
        cases p <;> rfl
      simp only [List.foldl_cons]
      rw [ih, h1]

/-! ### bjeea_watch.py — seen-URL bookkeeping of `handle_section` -/

/-- Result of the posting loop inside `handle_section`: the urls posted to
Discourse in order, the in-memory `seen_urls` list when the loop stops, and
whether the loop ran to completion (a failed post raises out of the
function, aborting the loop and the rest of the section). -/
structure PostLoopOut where
  posted : List String
  seen : List String
  completed : Bool
deriving DecidableEq, Repr

/-- `bjeea_watch.py`, the `for article_url in new_urls` loop of
`handle_section` (lines 372-379): post each url and append it to
`seen_urls` immediately afterwards.  `postOk u = false` models
`post_to_discourse` raising for `u` (after `resp.raise_for_status()`), in
which case the append for `u` does not happen and the loop is aborted. -/
def postLoop (postOk : String → Bool) : List String → List String → PostLoopOut
  | [], seen => ⟨[], seen, true⟩
  | u :: rest, seen =>
    if postOk u then
      let r := postLoop postOk rest (seen ++ [u])
      ⟨u :: r.posted, r.seen, r.completed⟩
    else ⟨[], seen, false⟩

/-- Result of one `handle_section` run: what was posted, the in-memory
seen list afterwards, and the state handed to `save_state` (`none` when
`save_state` was not reached: early return on no new urls, or an aborted
posting loop). -/
structure SectionRun where
  posted : List String
  seenAfter : List String
  savedState : Option (List String)
deriving DecidableEq, Repr

/-- `bjeea_watch.py`, `handle_section` (lines 344-382), with the extracted
article links and the section's loaded `seen_urls` as inputs:
`new_urls = [u for u in links if u not in seen_urls]`; when it is empty the
function returns before posting or saving; otherwise it runs the posting
loop and then persists the (mutated) state via `save_state`. -/
def handle_section (postOk : String → Bool) (links seen : List String) : SectionRun :=
  if links.filter (fun u => !(seen.contains u)) = [] then ⟨[], seen, none⟩
  else
    ⟨(postLoop postOk (links.filter (fun u => !(seen.contains u))) seen).posted,
     (postLoop postOk (links.filter (fun u => !(seen.contains u))) seen).seen,
     if (postLoop postOk (links.filter (fun u => !(seen.contains u))) seen).completed
     then some (postLoop postOk (links.filter (fun u => !(seen.contains u))) seen).seen
     else none⟩

theorem postLoop_seen_eq (postOk : String → Bool) (urls : List String) :
    ∀ seen : List String,
      (postLoop postOk urls seen).seen = seen ++ (postLoop postOk urls seen).posted := by
  induction urls with
  | nil => intro seen; simp [postLoop]
  | cons u rest ih =>
    intro seen
    unfold postLoop
    split
    · simp only
      rw [ih (seen ++ [u])]
      simp
    · simp

theorem postLoop_posted_subset (postOk : String → Bool) (urls : List String) :
    ∀ seen : List String, ∀ u ∈ (postLoop postOk urls seen).posted, u ∈ urls := by
  induction urls with
  | nil => intro seen u hu; simp [postLoop] at hu
  | cons v rest ih =>
    intro seen u hu
    unfold postLoop at hu
    split at hu
    · simp only [List.mem_cons] at hu ⊢
      rcases hu with hu | hu
      · exact Or.inl hu
      · exact Or.inr (ih _ u hu)
    · simp at hu

theorem postLoop_all_ok (postOk : String → Bool) (hok : ∀ u, postOk u = true)
    (urls : List String) :
    ∀ seen : List String,
      (postLoop postOk urls seen).posted = urls ∧
      (postLoop postOk urls seen).completed = true := by
  induction urls with
  | nil => intro seen; simp [postLoop]
  | cons u rest ih =>
    intro seen
    unfold postLoop
    rw [if_pos (hok u)]
    simp only
    exact ⟨by rw [(ih (seen ++ [u])).1], (ih (seen ++ [u])).2⟩

/-- **C5.** An article url recorded in a section's `seen_urls` state is
never posted again.  With `post_to_discourse` succeeding on every url:
`handle_section` posts exactly the extracted links not already in
`seen_urls`; nothing it posts was in `seen_urls`; every posted url is
appended to `seen_urls` (final in-memory list = old list followed by the
posted urls); when anything was posted the state is persisted via
`save_state` with exactly that list; and a later run started from the
saved list (with any links and any post outcomes) re-posts none of the
urls posted by the first run. -/
theorem handle_section_no_repost (postOk : String → Bool)
    (hok : ∀ u, postOk u = true) (links seen : List String) :
    (handle_section postOk links seen).posted =
        links.filter (fun u => !(seen.contains u)) ∧
    (∀ u ∈ (handle_section postOk links seen).posted, u ∉ seen) ∧
    (handle_section postOk links seen).seenAfter =
        seen ++ (handle_section postOk links seen).posted ∧
    ((handle_section postOk links seen).posted ≠ [] →
      (handle_section postOk links seen).savedState =
        some (handle_section postOk links seen).seenAfter) ∧
    (∀ links2 : List String, ∀ postOk2 : String → Bool,
      ∀ u ∈ (handle_section postOk links seen).posted,
        u ∉ (handle_section postOk2 links2
              (handle_section postOk links seen).seenAfter).posted) := by
  have memNew : ∀ u ∈ links.filter (fun u => !(seen.contains u)), u ∉ seen := by
    intro u hu
    rw [List.mem_filter] at hu
    simpa using hu.2
  have postedNotSeen : ∀ pk : String → Bool, ∀ ls sn : List String,
      ∀ u ∈ (handle_section pk ls sn).posted, u ∉ sn := by
    intro pk ls sn u hu
    unfold handle_section at hu
    split at hu
    · simp at hu
    · simp only at hu
      have hmem := postLoop_posted_subset pk _ sn u hu
      rw [List.mem_filter] at hmem
      simpa using hmem.2
  unfold handle_section
  split
  · rename_i hempty
    refine ⟨hempty.symm, by simp, by simp, by simp, ?_⟩
    intro links2 postOk2 u hu
    simp at hu
  · rename_i hnonempty
    simp only
    obtain ⟨hposted, hcompleted⟩ := postLoop_all_ok postOk hok _ seen
    have hseen := postLoop_seen_eq postOk (links.filter (fun u => !(seen.contains u))) seen
    refine ⟨hposted, ?_, hseen, ?_, ?_⟩
    · intro u hu
      rw [hposted] at hu
      exact memNew u hu
    · intro _
      rw [if_pos hcompleted]
    · intro links2 postOk2 u hu hu2
      have h1 : u ∈ (postLoop postOk (links.filter (fun x => !(seen.contains x))) seen).seen := by
        rw [hseen]
        exact List.mem_append_right seen hu
      exact postedNotSeen postOk2 links2 _ u hu2 h1

/-- Evaluation witness for `handle_section_no_repost` at concrete links and
a concrete pre-seen url. -/
theorem handle_section_no_repost_witness :
    (handle_section (fun _ => true) ["a.html", "b.html"] ["a.html"]).posted = ["b.html"] ∧
    (handle_section (fun _ => true) ["a.html", "b.html"] ["a.html"]).savedState =
      some ["a.html", "b.html"] := by
  have h := handle_section_no_repost (fun _ => true) (fun _ => rfl)
    ["a.html", "b.html"] ["a.html"]
  refine ⟨by rw [h.1]; rfl, ?_⟩
  have h4 := h.2.2.2.1 (by rw [h.1]; simp)
  rw [h4, h.2.2.1, h.1]
  rfl

/-! ### attendance_script_robust.py — the `retry_on_exception` decorator -/

/-- The exceptions a wrapped call can raise, as far as the decorator's
control flow distinguishes them (`attendance_script_robust.py`,
lines 108-191).  `invalidSession` is `InvalidSessionIdException`;
`webDriver badMsg` is a `WebDriverException` whose message does
(`badMsg = true`) or does not contain one of the invalid-session markers
("invalid session id", "session deleted", "chrome not reachable",
"no such execution context", "target window already closed");
`otherRetryable` covers `TimeoutException`,
`StaleElementReferenceException` and `ElementClickInterceptedException`.
All of these belong to the decorator's `exceptions` tuple. -/
inductive RaisedExc
  | invalidSession
  | webDriver (badMsg : Bool)
  | otherRetryable
deriving DecidableEq, Repr

/-- The `is_invalid_session` test of the decorator: an
`InvalidSessionIdException`, or a `WebDriverException` whose message
matches one of the invalid-session markers. -/
def isInvalidSessionExc : RaisedExc → Bool
  | .invalidSession => true
  | .webDriver badMsg => badMsg
  | .otherRetryable => false

/-- How a single wrapper invocation ends: the wrapped function's value is
returned, an exception propagates, or the `while` loop is left without
either (Python then returns `None`; unreachable for `retries ≥ 0`). -/
inductive RetryOutcome
  | returned
  | raised (e : RaisedExc)
  | fellThrough
deriving DecidableEq, Repr

/-- Observable trace of one call of a `retry_on_exception`-wrapped
function: how often the wrapped function was invoked, the durations passed
to `time.sleep` in order, the outcome, and the final value of the shared
`__session_invalid_flag__` entry (the value left in `outer_kwargs_ref` by
the `finally` clause that runs last). -/
structure RetryTrace where
  calls : Nat
  sleeps : List Nat
  outcome : RetryOutcome
  finalFlag : Bool
deriving DecidableEq, Repr

/-- The decorator's `while attempts <= retries` loop
(`attendance_script_robust.py`, lines 123-188).  `remaining` is the number
of loop iterations still allowed, i.e. `retries + 1 - attempts`; `attempts`
and `flag` are the Python locals `attempts` and `session_invalid_flag`.
`behaves k` tells how the `k`-th invocation of the wrapped function ends
(`none` = normal return); `hasDriver` says whether `args[0]` is a webdriver
instance, and `checkInvalid k` whether the pre-retry liveness probe
(`driver_instance.title`) after failure `k` reveals an invalidated session.

Faithful details: on an invalid-session exception (or with the flag already
set) the decorator writes `True` into the shared dict and re-raises, but
the `finally` clause then stores the *local* `session_invalid_flag` back
into the shared dict, so the trace's `finalFlag` is that local value:
`flag || checked` — `false` when the exception itself was the only
evidence of invalidation. -/
def retryLoop (delay : Nat) (behaves : Nat → Option RaisedExc)
    (hasDriver : Bool) (checkInvalid : Nat → Bool) :
    Nat → Nat → Bool → RetryTrace
  | 0, _, flag => ⟨0, [], .fellThrough, flag⟩
  | remaining + 1, attempts, flag =>
    match behaves (attempts + 1) with
    | none => ⟨1, [], .returned, flag⟩
    | some e =>
      if isInvalidSessionExc e
         || (hasDriver && !(isInvalidSessionExc e) && !flag && checkInvalid (attempts + 1))
         || flag then
        ⟨1, [], .raised e,
         flag || (hasDriver && !(isInvalidSessionExc e) && !flag && checkInvalid (attempts + 1))⟩
      else if remaining = 0 then
        ⟨1, [], .raised e, flag⟩
      else
        ⟨(retryLoop delay behaves hasDriver checkInvalid remaining (attempts + 1) flag).calls + 1,
         delay * (attempts + 1) ::
           (retryLoop delay behaves hasDriver checkInvalid remaining (attempts + 1) flag).sleeps,
         (retryLoop delay behaves hasDriver checkInvalid remaining (attempts + 1) flag).outcome,
         (retryLoop delay behaves hasDriver checkInvalid remaining (attempts + 1) flag).finalFlag⟩

/-- A full call of a function wrapped by
`retry_on_exception(retries, delay, ...)`, entered with `attempts = 0` and
initial shared flag `flag0`. -/
def retryCall (retries delay : Nat) (behaves : Nat → Option RaisedExc)
    (hasDriver : Bool) (checkInvalid : Nat → Bool) (flag0 : Bool) : RetryTrace :=
  retryLoop delay behaves hasDriver checkInvalid (retries + 1) 0 flag0

theorem retryLoop_calls_le (delay : Nat) (behaves : Nat → Option RaisedExc)
    (hasDriver : Bool) (checkInvalid : Nat → Bool) (remaining : Nat) :
    ∀ attempts : Nat, ∀ flag : Bool,
      (retryLoop delay behaves hasDriver checkInvalid remaining attempts flag).calls ≤ remaining := by
  induction remaining with
  | zero => intro attempts flag; simp [retryLoop]
  | succ n ih =>
    intro attempts flag
    unfold retryLoop
    cases behaves (attempts + 1) with
    | none => simp
    | some e =>
      simp only
      split
      · simp
      · split
        · simp
        · simp only
          have := ih (attempts + 1) flag
          omega

theorem retryLoop_always_fail (delay : Nat) (behaves : Nat → Option RaisedExc)
    (checkInvalid : Nat → Bool)
    (hfail : ∀ k, behaves k = some RaisedExc.otherRetryable) (remaining : Nat) :
    ∀ attempts : Nat,
      retryLoop delay behaves false checkInvalid (remaining + 1) attempts false =
        ⟨remaining + 1,
         (List.range remaining).map (fun k => delay * (attempts + k + 1)),
         .raised RaisedExc.otherRetryable, false⟩ := by
  induction remaining with
  | zero =>
    intro attempts
    unfold retryLoop
    rw [hfail (attempts + 1)]
    simp [isInvalidSessionExc]
  | succ n ih =>
    intro attempts
    unfold retryLoop
    rw [hfail (attempts + 1)]
    simp only [isInvalidSessionExc, Bool.false_and, Bool.and_false, Bool.false_or,
      Bool.or_false, if_false, Nat.succ_ne_zero, Bool.false_eq_true]
    rw [ih (attempts + 1)]
    have hs : delay * (attempts + 1) ::
        (List.range n).map (fun k => delay * (attempts + 1 + k + 1)) =
        (List.range (n + 1)).map (fun k => delay * (attempts + k + 1)) := by
      rw [List.range_succ_eq_map, List.map_cons, List.map_map, List.cons.injEq]
      refine ⟨by ring_nf, ?_⟩
      apply List.map_congr_left
      intro k _
      simp only [Function.comp_apply, Nat.succ_eq_add_one]
      ring_nf
    rw [hs]

/-- The spec's reading of "the delay slept before successive retries grows
exponentially with the attempt number", modelled from the spec: the slept
durations strictly increase and form a geometric progression (any sequence
`c·bᵏ` with `b > 1` satisfies exactly this). -/
def SpecExponentialSleeps (l : List Nat) : Prop :=
  ∀ i : Fin l.length, ∀ j : Fin l.length, ∀ k : Fin l.length,
    (j : Nat) = (i : Nat) + 1 → (k : Nat) = (i : Nat) + 2 →
      l.get i < l.get j ∧ l.get j * l.get j = l.get i * l.get k

instance : DecidablePred SpecExponentialSleeps := by
  intro l
  unfold SpecExponentialSleeps
  infer_instance

/-- **C2, counterexample.** With `retries = 3`, `delay = 5` and a wrapped
function that keeps raising a retryable exception, the decorator sleeps
`5, 10, 15` seconds — `delay * attempts`, which is not exponential growth
in the attempt number (10·10 ≠ 5·15). -/
theorem retry_backoff_not_exponential :
    (retryCall 3 5 (fun _ => some RaisedExc.otherRetryable) false (fun _ => false) false).sleeps
      = [5, 10, 15] ∧
    ¬ SpecExponentialSleeps
        (retryCall 3 5 (fun _ => some RaisedExc.otherRetryable) false
          (fun _ => false) false).sleeps := by
  constructor
  · decide
  · decide

/-- **C2, amended.** A function wrapped by `retry_on_exception` with
parameters `retries = r` and `delay = d` is invoked at most `r + 1` times
in total, whatever the call results, the driver state and the initial
flag; and when it keeps raising a retryable exception (no webdriver
argument, flag initially clear) it is invoked exactly `r + 1` times and the
delays slept before successive retries grow *linearly* with the attempt
number: the sleep before the `k`-th retry is `d * k`. -/
theorem retry_bounded_and_linear_backoff (r d : Nat)
    (behaves : Nat → Option RaisedExc)
    (hfail : ∀ k, behaves k = some RaisedExc.otherRetryable) :
    (∀ behaves2 : Nat → Option RaisedExc, ∀ hasDriver : Bool,
     ∀ checkInvalid : Nat → Bool, ∀ flag0 : Bool,
      (retryCall r d behaves2 hasDriver checkInvalid flag0).calls ≤ r + 1) ∧
    (retryCall r d behaves false (fun _ => false) false).calls = r + 1 ∧
    (retryCall r d behaves false (fun _ => false) false).sleeps =
      (List.range r).map (fun k => d * (k + 1)) := by
  refine ⟨?_, ?_, ?_⟩
  · intro behaves2 hasDriver checkInvalid flag0
    exact retryLoop_calls_le d behaves2 hasDriver checkInvalid (r + 1) 0 flag0
  · unfold retryCall
    rw [retryLoop_always_fail d behaves (fun _ => false) hfail r 0]
  · unfold retryCall
    rw [retryLoop_always_fail d behaves (fun _ => false) hfail r 0]
    simp

/-- Evaluation witness for `retry_bounded_and_linear_backoff` at the
decorator's default parameters `retries = 2`, `delay = 5`. -/
theorem retry_bounded_and_linear_backoff_witness :
    (retryCall 2 5 (fun _ => some RaisedExc.otherRetryable) true
        (fun _ => true) false).calls ≤ 3 ∧
    (retryCall 2 5 (fun _ => some RaisedExc.otherRetryable) false
        (fun _ => false) false).calls = 3 ∧
    (retryCall 2 5 (fun _ => some RaisedExc.otherRetryable) false
        (fun _ => false) false).sleeps = [5, 10] := by
  have h := retry_bounded_and_linear_backoff 2 5
    (fun _ => some RaisedExc.otherRetryable) (fun _ => rfl)
  exact ⟨h.1 _ true (fun _ => true) false, h.2.1, by rw [h.2.2]; decide⟩

/-- **C3.** A wrapped function whose first call raises
`InvalidSessionIdException` (initial shared flag `False`, `retries = 2`
remaining): the decorator indeed performs no further retries — one
invocation, no sleeps, the exception re-raised — but the final value of the
shared `__session_invalid_flag__` is `False`, not `True`: the assignment of
`True` made just before `raise e` is immediately overwritten by the
`finally` clause, which stores the local `session_invalid_flag` (still
`False`) back into the shared dict. -/
theorem invalid_session_reraise_but_flag_lost :
    retryCall 2 5 (fun _ => some RaisedExc.invalidSession) true
        (fun _ => false) false =
      ⟨1, [], RetryOutcome.raised RaisedExc.invalidSession, false⟩ := by
  decide

/-! ### saa.py — data model and `process_day` -/

/-- A calendar event of type `lesson` as consumed by `saa.py`.  `customId`
is `int(lesson["custom"]["id"])` — the attendance_time_id — and
`subjectId` is `int(lesson["subject"]["id"])` — the class group id;
`none` stands for a missing or non-integer raw value (every use site
performs the same `int(...)` conversion and skips the lesson on failure). -/
structure Lesson where
  title : String
  customId : Option Int
  subjectId : Option Int
deriving DecidableEq, Repr

/-- The status strings `process_day` can return, as an enumeration. -/
inductive Status
  | API_FETCH_ERROR
  | NO_CLASS
  | NO_ACTION_NEEDED
  | NOTHING_TO_SUBMIT
  | SUCCESS
  | SUCCESS_WITH_WARNINGS
  | VERIFY_FAILED
deriving DecidableEq, Repr

/-- Possible results of `submit_attendance_for_lesson_group`: Python
`True`, the string `"WINDOW_CLOSED"` (HTTP 409/422), or `False`. -/
inductive SubmitResult
  | ok
  | windowClosed
  | failed
deriving DecidableEq, Repr

/-- Outcome of one call of `get_checked_attendance_time_ids` as seen at
the network layer: the API answered with a list of checked ids, or a
`requests.RequestException` was raised. -/
inductive PollOutcome
  | ok (ids : List Int)
  | netError
deriving DecidableEq, Repr

/-- What `get_checked_attendance_time_ids` *returns* for a given network
outcome (`saa.py` lines 216-231): the gathered integer ids on success and
the empty set on a caught `RequestException` — the function never returns
`None`. -/
def getCheckedResult : PollOutcome → List Int
  | .ok ids => ids
  | .netError => []

/-- `saa.py` lines 350-360: the initial diff — keep the scheduled lessons
whose (valid integer) attendance_time_id is not among the already-checked
ids; lessons with a missing or invalid id are skipped. -/
def lessonsToSubmit (scheduled : List Lesson) (checkedIds : List Int) : List Lesson :=
  scheduled.filter (fun l =>
    match l.customId with
    | some t => !(checkedIds.contains t)
    | none => false)

/-- The distinct valid subject ids of the lessons, in first-occurrence
order — the key order of the Python `defaultdict(list)` built in
`process_day` lines 367-376. -/
def groupKeys (ls : List Lesson) : List Int :=
  ls.foldl (fun acc l =>
    match l.subjectId with
    | some g => if acc.contains g then acc else acc ++ [g]
    | none => acc) []

/-- `saa.py` lines 367-379: group the to-submit lessons by integer subject
id, preserving insertion order; lessons with a missing or invalid subject
id are dropped with a warning. -/
def groupsToSubmit (ls : List Lesson) : List (Int × List Lesson) :=
  (groupKeys ls).map (fun g => (g, ls.filter (fun l => l.subjectId == some g)))

/-- `saa.py` lines 382-390: the set of attendance_time_ids attempted,
collected from every lesson of every submitted group. -/
def attemptedIds (groups : List (Int × List Lesson)) : List Int :=
  groups.flatMap (fun p => p.2.filterMap (fun l => l.customId))

/-- `saa.py` lines 394-404: the verification polling loop over the checked
sets returned by successive `get_checked_attendance_time_ids` calls.
Returns the final checked set (`final_checked_ids`, which stays empty when
no poll ever covers all attempted ids) and the list of slept durations
(5 seconds between consecutive polls, none after the last). -/
def runPolls (attempted : List Int) : List (List Int) → List Int × List Nat
  | [] => ([], [])
  | cur :: rest =>
    if attempted.all (fun t => cur.contains t) then (cur, [])
    else
      match rest with
      | [] => ([], [])
      | _ :: _ =>
        ((runPolls attempted rest).1, 5 :: (runPolls attempted rest).2)

/-- Observable result of one `process_day` call: the returned status, the
lesson groups passed to `submit_attendance_for_lesson_group` in order, the
attempted attendance_time_ids, the final checked set after polling, and
the sleeps performed during verification. -/
structure DayRun where
  status : Status
  submittedGroups : List (Int × List Lesson)
  attempted : List Int
  finalChecked : List Int
  sleeps : List Nat
deriving DecidableEq, Repr

/-- The lesson groups `process_day` submits for a day:
`groupsToSubmit` applied to the initial diff. -/
def dayGroups (scheduled : List Lesson) (checked : List Int) : List (Int × List Lesson) :=
  groupsToSubmit (lessonsToSubmit scheduled checked)

/-- The attempted attendance_time_ids of a day. -/
def dayAttempted (scheduled : List Lesson) (checked : List Int) : List Int :=
  attemptedIds (dayGroups scheduled checked)

/-- The polling phase of a day: final checked set and sleeps, fed with the
checked sets returned by the three possible
`get_checked_attendance_time_ids` calls. -/
def dayPollRun (scheduled : List Lesson) (checked : List Int)
    (pollAt : Nat → PollOutcome) : List Int × List Nat :=
  runPolls (dayAttempted scheduled checked)
    [getCheckedResult (pollAt 1), getCheckedResult (pollAt 2), getCheckedResult (pollAt 3)]

/-- `saa.py` lines 406-415: the lessons of the initial diff whose id was
attempted but is absent from the final checked set. -/
def stillPendingAfter (toSubmit : List Lesson) (attempted final : List Int) : List Lesson :=
  toSubmit.filter (fun l =>
    match l.customId with
    | some t => attempted.contains t && !(final.contains t)
    | none => false)

/-- `saa.py` lines 381-433: submissions, verification polling and the
final status determination of `process_day`, reached once the day has a
non-empty group list to submit. -/
def processSubmissionPhase (scheduled : List Lesson) (initialChecked : List Int)
    (submitRes : Int → SubmitResult) (pollAt : Nat → PollOutcome) : DayRun :=
  if stillPendingAfter (lessonsToSubmit scheduled initialChecked)
      (dayAttempted scheduled initialChecked)
      (dayPollRun scheduled initialChecked pollAt).1 = [] then
    if ((dayGroups scheduled initialChecked).map (fun p => submitRes p.1)).contains
        .windowClosed then
      ⟨.SUCCESS_WITH_WARNINGS, dayGroups scheduled initialChecked,
       dayAttempted scheduled initialChecked,
       (dayPollRun scheduled initialChecked pollAt).1,
       (dayPollRun scheduled initialChecked pollAt).2⟩
    else
      ⟨.SUCCESS, dayGroups scheduled initialChecked,
       dayAttempted scheduled initialChecked,
       (dayPollRun scheduled initialChecked pollAt).1,
       (dayPollRun scheduled initialChecked pollAt).2⟩
  else
    ⟨.VERIFY_FAILED, dayGroups scheduled initialChecked,
     dayAttempted scheduled initialChecked,
     (dayPollRun scheduled initialChecked pollAt).1,
     (dayPollRun scheduled initialChecked pollAt).2⟩

/-- `saa.py`, `process_day` (lines 341-433).  External effects are inputs:
`fetched` is the result of `get_scheduled_lessons` (`none` = network
error), `initialChecked` the set returned by the first
`get_checked_attendance_time_ids` call, `submitRes` the submission result
per class-group id, and `pollAt k` the network outcome of the `k`-th
verification poll.  The `current_checked_ids is None` branch of the code
is unreachable (the getter always returns a set) and has no counterpart
here. -/
def process_day (fetched : Option (List Lesson)) (initialChecked : List Int)
    (submitRes : Int → SubmitResult) (pollAt : Nat → PollOutcome) : DayRun :=
  match fetched with
  | none => ⟨.API_FETCH_ERROR, [], [], [], []⟩
  | some scheduled =>
    if scheduled = [] then ⟨.NO_CLASS, [], [], [], []⟩
    else if lessonsToSubmit scheduled initialChecked = [] then
      ⟨.NO_ACTION_NEEDED, [], [], [], []⟩
    else if groupsToSubmit (lessonsToSubmit scheduled initialChecked) = [] then
      ⟨.NOTHING_TO_SUBMIT, [], [], [], []⟩
    else
      processSubmissionPhase scheduled initialChecked submitRes pollAt

theorem mem_lessonsToSubmit (scheduled : List Lesson) (checked : List Int)
    (l : Lesson) :
    l ∈ lessonsToSubmit scheduled checked ↔
      l ∈ scheduled ∧ ∃ t : Int, l.customId = some t ∧ t ∉ checked := by
  unfold lessonsToSubmit
  rw [List.mem_filter]
  constructor
  · rintro ⟨hmem, hp⟩
    refine ⟨hmem, ?_⟩
    cases hc : l.customId with
    | none => rw [hc] at hp; simp at hp
    | some t =>
      rw [hc] at hp
      simp only [Bool.not_eq_true'] at hp
      exact ⟨t, rfl, by simpa using hp⟩
  · rintro ⟨hmem, t, hc, hnc⟩
    refine ⟨hmem, ?_⟩
    rw [hc]
    simpa using hnc

theorem mem_dayGroups_snd (scheduled : List Lesson) (checked : List Int)
    (p : Int × List Lesson) (hp : p ∈ dayGroups scheduled checked) :
    p.2 = (lessonsToSubmit scheduled checked).filter
      (fun l => l.subjectId == some p.1) := by
  unfold dayGroups groupsToSubmit at hp
  rw [List.mem_map] at hp
  obtain ⟨g, _, hg⟩ := hp
  rw [← hg]

theorem processSubmissionPhase_submittedGroups (scheduled : List Lesson)
    (checked : List Int) (submitRes : Int → SubmitResult)
    (pollAt : Nat → PollOutcome) :
    (processSubmissionPhase scheduled checked submitRes pollAt).submittedGroups =
      dayGroups scheduled checked := by
  unfold processSubmissionPhase
  split
  · split <;> rfl
  · rfl

theorem processSubmissionPhase_attempted (scheduled : List Lesson)
    (checked : List Int) (submitRes : Int → SubmitResult)
    (pollAt : Nat → PollOutcome) :
    (processSubmissionPhase scheduled checked submitRes pollAt).attempted =
      dayAttempted scheduled checked := by
  unfold processSubmissionPhase
  split
  · split <;> rfl
  · rfl

theorem processSubmissionPhase_finalChecked (scheduled : List Lesson)
    (checked : List Int) (submitRes : Int → SubmitResult)
    (pollAt : Nat → PollOutcome) :
    (processSubmissionPhase scheduled checked submitRes pollAt).finalChecked =
      (dayPollRun scheduled checked pollAt).1 := by
  unfold processSubmissionPhase
  split
  · split <;> rfl
  · rfl

theorem processSubmissionPhase_sleeps (scheduled : List Lesson)
    (checked : List Int) (submitRes : Int → SubmitResult)
    (pollAt : Nat → PollOutcome) :
    (processSubmissionPhase scheduled checked submitRes pollAt).sleeps =
      (dayPollRun scheduled checked pollAt).2 := by
  unfold processSubmissionPhase
  split
  · split <;> rfl
  · rfl

/-- **C1.** `process_day` performs idempotent set-difference
reconciliation: every lesson of every group handed to
`submit_attendance_for_lesson_group` has a valid attendance_time_id absent
from the checked set returned by the verification API (a lesson already
reported as checked is never submitted again); and when every scheduled
lesson's attendance_time_id is already checked, `process_day` returns
`NO_ACTION_NEEDED` with no submission performed at all. -/
theorem process_day_diff_idempotent (fetched : Option (List Lesson))
    (initialChecked : List Int) (submitRes : Int → SubmitResult)
    (pollAt : Nat → PollOutcome) :
    (∀ p ∈ (process_day fetched initialChecked submitRes pollAt).submittedGroups,
      ∀ l ∈ p.2, ∃ t : Int, l.customId = some t ∧ t ∉ initialChecked) ∧
    (∀ scheduled : List Lesson, fetched = some scheduled → scheduled ≠ [] →
      (∀ l ∈ scheduled, ∃ t : Int, l.customId = some t ∧ t ∈ initialChecked) →
      process_day fetched initialChecked submitRes pollAt =
        ⟨.NO_ACTION_NEEDED, [], [], [], []⟩) := by
  constructor
  · intro p hp l hl
    cases fetched with
    | none => simp [process_day] at hp
    | some scheduled =>
      unfold process_day at hp
      simp only at hp
      split at hp
      · simp at hp
      · split at hp
        · simp at hp
        · split at hp
          · simp at hp
          · rw [processSubmissionPhase_submittedGroups] at hp
            have h2 := mem_dayGroups_snd scheduled initialChecked p hp
            rw [h2] at hl
            rw [List.mem_filter] at hl
            have h3 := (mem_lessonsToSubmit scheduled initialChecked l).1 hl.1
            exact h3.2
  · intro scheduled heq hne hall
    subst heq
    have h0 : lessonsToSubmit scheduled initialChecked = [] := by
      unfold lessonsToSubmit
      rw [List.filter_eq_nil_iff]
      intro l hl
      obtain ⟨t, hc, hmem⟩ := hall l hl
      rw [hc]
      simpa using hmem
    unfold process_day
    simp only
    rw [if_neg hne, if_pos h0]

/-- Evaluation witness for `process_day_diff_idempotent`: a day whose only
lesson is unchecked gets it submitted (first part), and a day whose only
lesson is already checked yields `NO_ACTION_NEEDED` with no submission
(second part). -/
theorem process_day_diff_idempotent_witness :
    (∃ t : Int, (Lesson.mk "math" (some 1) (some 10)).customId = some t ∧
      t ∉ ([] : List Int)) ∧
    process_day (some [⟨"math", some 1, some 10⟩]) [1]
        (fun _ => SubmitResult.ok) (fun _ => PollOutcome.ok []) =
      ⟨Status.NO_ACTION_NEEDED, [], [], [], []⟩ := by
  constructor
  · exact (process_day_diff_idempotent (some [⟨"math", some 1, some 10⟩]) []
      (fun _ => SubmitResult.ok) (fun _ => PollOutcome.ok [])).1
      (10, [⟨"math", some 1, some 10⟩]) (by decide)
      ⟨"math", some 1, some 10⟩ (by decide)
  · refine (process_day_diff_idempotent (some [⟨"math", some 1, some 10⟩]) [1]
      (fun _ => SubmitResult.ok) (fun _ => PollOutcome.ok [])).2
      [⟨"math", some 1, some 10⟩] rfl (by decide) ?_
    intro l hl
    rw [List.mem_singleton] at hl
    subst hl
    exact ⟨1, rfl, by decide⟩

theorem mem_groupsToSubmit_snd (ls : List Lesson) (p : Int × List Lesson)
    (hp : p ∈ groupsToSubmit ls) :
    p.2 = ls.filter (fun l => l.subjectId == some p.1) := by
  unfold groupsToSubmit at hp
  rw [List.mem_map] at hp
  obtain ⟨g, _, hg⟩ := hp
  rw [← hg]

theorem mem_attemptedIds (gs : List (Int × List Lesson)) (t : Int) :
    t ∈ attemptedIds gs ↔ ∃ p ∈ gs, ∃ l ∈ p.2, l.customId = some t := by
  unfold attemptedIds
  rw [List.mem_flatMap]
  constructor
  · rintro ⟨p, hp, hmem⟩
    rw [List.mem_filterMap] at hmem
    obtain ⟨l, hl, hc⟩ := hmem
    exact ⟨p, hp, l, hl, hc⟩
  · rintro ⟨p, hp, l, hl, hc⟩
    refine ⟨p, hp, ?_⟩
    rw [List.mem_filterMap]
    exact ⟨l, hl, hc⟩

theorem runPolls_sleeps (a : List Int) (ps : List (List Int)) :
    (runPolls a ps).2.length + 1 ≤ max ps.length 1 ∧
    ∀ x ∈ (runPolls a ps).2, x = 5 := by
  induction ps with
  | nil => simp [runPolls]
  | cons cur rest ih =>
    unfold runPolls
    split
    · simp
    · cases rest with
      | nil => simp [runPolls]
      | cons r2 rs =>
        simp only [List.length_cons]
        constructor
        · have := ih.1
          simp only [List.length_cons] at this
          omega
        · intro x hx
          simp only [List.mem_cons] at hx
          rcases hx with hx | hx
          · exact hx
          · exact ih.2 x hx

theorem runPolls_first_covers (a : List Int) (cur : List Int)
    (rest : List (List Int)) (h : ∀ t ∈ a, t ∈ cur) :
    runPolls a (cur :: rest) = (cur, []) := by
  unfold runPolls
  rw [if_pos]
  rw [List.all_eq_true]
  intro t ht
  simpa using h t ht

theorem stillPending_empty_iff (toSubmit : List Lesson) (final : List Int) :
    stillPendingAfter toSubmit (attemptedIds (groupsToSubmit toSubmit)) final = [] ↔
      ∀ t ∈ attemptedIds (groupsToSubmit toSubmit), t ∈ final := by
  unfold stillPendingAfter
  rw [List.filter_eq_nil_iff]
  constructor
  · intro hnone t ht
    by_contra hnf
    obtain ⟨p, hp, l, hl, hc⟩ := (mem_attemptedIds _ t).1 ht
    have hsnd := mem_groupsToSubmit_snd toSubmit p hp
    rw [hsnd] at hl
    rw [List.mem_filter] at hl
    have hfalse := hnone l hl.1
    rw [hc] at hfalse
    simp only [Bool.and_eq_true, Bool.not_eq_eq_eq_not, Bool.not_true, not_and,
      Bool.not_eq_false, List.elem_eq_mem, decide_eq_true_eq] at hfalse
    exact hnf (hfalse ht)
  · intro hall l _
    cases hc : l.customId with
    | none => simp
    | some t =>
      simp only [Bool.and_eq_true, Bool.not_eq_eq_eq_not, Bool.not_true, not_and,
        Bool.not_eq_false, List.elem_eq_mem, decide_eq_true_eq]
      exact hall t

theorem stillPending_empty_iff' (s : List Lesson) (c : List Int) (final : List Int) :
    stillPendingAfter (lessonsToSubmit s c) (dayAttempted s c) final = [] ↔
      ∀ t ∈ dayAttempted s c, t ∈ final := by
  unfold dayAttempted dayGroups
  exact stillPending_empty_iff (lessonsToSubmit s c) final

theorem processSubmissionPhase_success_iff (s : List Lesson) (c : List Int)
    (sr : Int → SubmitResult) (pa : Nat → PollOutcome) :
    ((processSubmissionPhase s c sr pa).status = .SUCCESS ∨
     (processSubmissionPhase s c sr pa).status = .SUCCESS_WITH_WARNINGS) ↔
      stillPendingAfter (lessonsToSubmit s c) (dayAttempted s c)
        (dayPollRun s c pa).1 = [] := by
  unfold processSubmissionPhase
  split
  · rename_i hpend
    split <;> simp [hpend]
  · rename_i hpend
    simp [hpend]

theorem processSubmissionPhase_vf_iff (s : List Lesson) (c : List Int)
    (sr : Int → SubmitResult) (pa : Nat → PollOutcome) :
    (processSubmissionPhase s c sr pa).status = .VERIFY_FAILED ↔
      ¬ stillPendingAfter (lessonsToSubmit s c) (dayAttempted s c)
          (dayPollRun s c pa).1 = [] := by
  unfold processSubmissionPhase
  split
  · rename_i hpend
    split <;> simp [hpend]
  · rename_i hpend
    simp [hpend]

theorem process_day_eq_phase (scheduled : List Lesson) (ic : List Int)
    (sr : Int → SubmitResult) (pa : Nat → PollOutcome)
    (hne : scheduled ≠ []) (hts : lessonsToSubmit scheduled ic ≠ [])
    (hgs : groupsToSubmit (lessonsToSubmit scheduled ic) ≠ []) :
    process_day (some scheduled) ic sr pa =
      processSubmissionPhase scheduled ic sr pa := by
  unfold process_day
  simp only
  rw [if_neg hne, if_neg hts, if_neg hgs]

/-- **C4, counterexample.** The claim says `process_day` "returns
VERIFY_FAILED whenever some attempted lesson is still pending or a poll
errors".  But `get_checked_attendance_time_ids` returns the empty set (not
`None`) on a network error, so the poll-error branch of `process_day` is
unreachable: here the first verification poll raises a network error and
the second poll reports the attempted lesson checked, and `process_day`
returns `SUCCESS`, not `VERIFY_FAILED`. -/
theorem process_day_poll_error_still_success :
    (fun k => if k = 1 then PollOutcome.netError else PollOutcome.ok [1]) 1 =
      PollOutcome.netError ∧
    (process_day (some [⟨"math", some 1, some 10⟩]) []
        (fun _ => SubmitResult.ok)
        (fun k => if k = 1 then PollOutcome.netError else PollOutcome.ok [1])).status =
      Status.SUCCESS := by
  exact ⟨rfl, by decide⟩

/-- **C4, amended.** Once `process_day` reaches its submission phase, it
polls the verification API at most 3 times with 5-second sleeps between
consecutive polls (at most two sleeps, each of 5 seconds), stopping early
once every attempted attendance_time_id is reported checked; it returns
`SUCCESS` or `SUCCESS_WITH_WARNINGS` exactly when every attempted id is in
the final checked set after polling, and `VERIFY_FAILED` exactly when some
attempted id is not; a poll network error behaves as an empty checked set
(it yields `VERIFY_FAILED` only through ids remaining unchecked, and a
later successful poll can still produce `SUCCESS`). -/
theorem process_day_polling_amended (scheduled : List Lesson) (ic : List Int)
    (sr : Int → SubmitResult) (pa : Nat → PollOutcome)
    (hne : scheduled ≠ []) (hts : lessonsToSubmit scheduled ic ≠ [])
    (hgs : groupsToSubmit (lessonsToSubmit scheduled ic) ≠ []) :
    ((process_day (some scheduled) ic sr pa).sleeps.length ≤ 2 ∧
      ∀ x ∈ (process_day (some scheduled) ic sr pa).sleeps, x = 5) ∧
    (((process_day (some scheduled) ic sr pa).status = .SUCCESS ∨
      (process_day (some scheduled) ic sr pa).status = .SUCCESS_WITH_WARNINGS) ↔
      ∀ t ∈ (process_day (some scheduled) ic sr pa).attempted,
        t ∈ (process_day (some scheduled) ic sr pa).finalChecked) ∧
    ((process_day (some scheduled) ic sr pa).status = .VERIFY_FAILED ↔
      ¬ ∀ t ∈ (process_day (some scheduled) ic sr pa).attempted,
        t ∈ (process_day (some scheduled) ic sr pa).finalChecked) ∧
    ((∀ t ∈ dayAttempted scheduled ic, t ∈ getCheckedResult (pa 1)) →
      (process_day (some scheduled) ic sr pa).sleeps = []) := by
  rw [process_day_eq_phase scheduled ic sr pa hne hts hgs]
  refine ⟨?_, ?_, ?_, ?_⟩
  · rw [processSubmissionPhase_sleeps]
    have h := runPolls_sleeps (dayAttempted scheduled ic)
      [getCheckedResult (pa 1), getCheckedResult (pa 2), getCheckedResult (pa 3)]
    unfold dayPollRun
    refine ⟨?_, h.2⟩
    have h1 := h.1
    simp only [List.length_cons, List.length_nil] at h1
    omega
  · rw [processSubmissionPhase_attempted, processSubmissionPhase_finalChecked]
    exact (processSubmissionPhase_success_iff scheduled ic sr pa).trans
      (stillPending_empty_iff' scheduled ic _)
  · rw [processSubmissionPhase_attempted, processSubmissionPhase_finalChecked]
    exact (processSubmissionPhase_vf_iff scheduled ic sr pa).trans
      (not_congr (stillPending_empty_iff' scheduled ic _))
  · intro hcov
    rw [processSubmissionPhase_sleeps]
    unfold dayPollRun
    rw [runPolls_first_covers _ _ _ hcov]

/-- Evaluation witness for `process_day_polling_amended`: a concrete day
whose single attempted lesson is checked by the first poll (no sleeps),
yielding `SUCCESS`. -/
theorem process_day_polling_amended_witness :
    (process_day (some [⟨"math", some 1, some 10⟩]) []
        (fun _ => SubmitResult.ok) (fun _ => PollOutcome.ok [1])).sleeps = [] ∧
    ((process_day (some [⟨"math", some 1, some 10⟩]) []
        (fun _ => SubmitResult.ok) (fun _ => PollOutcome.ok [1])).status = Status.SUCCESS ∨
     (process_day (some [⟨"math", some 1, some 10⟩]) []
        (fun _ => SubmitResult.ok) (fun _ => PollOutcome.ok [1])).status =
          Status.SUCCESS_WITH_WARNINGS) := by
  have h := process_day_polling_amended [⟨"math", some 1, some 10⟩] []
    (fun _ => SubmitResult.ok) (fun _ => PollOutcome.ok [1])
    (by decide) (by decide) (by decide)
  exact ⟨h.2.2.2 (by decide), h.2.1.2 (by decide)⟩

/-! ### saa.py — `run_date_range_task` and the last-processed-date marker -/

/-- `saa.py` line 456: the statuses after which `_save_state` is called. -/
def TERMINAL (st : Status) : Bool :=
  match st with
  | .SUCCESS | .SUCCESS_WITH_WARNINGS | .NO_ACTION_NEEDED
  | .NO_CLASS | .NOTHING_TO_SUBMIT => true
  | _ => false

/-- Observable effects of one `run_date_range_task` call: the dates
handed to `process_day`, in order, and the dates for which `_save_state`
wrote the marker, in order.  Dates are day numbers (the code works on
whole Beijing-timezone days stamped `YYYYMMDD`). -/
structure RangeRun where
  processed : List Nat
  savedStates : List Nat
deriving DecidableEq, Repr

/-- The consecutive day numbers from `a` to `b` inclusive (empty when
`b < a`). -/
def dateList (a b : Nat) : List Nat :=
  (List.range (b + 1 - a)).map (fun k => a + k)

/-- `saa.py` lines 457-470: the `while current_date <= end_date` loop,
iterating over the given dates; `dayStatus` is the status `process_day`
returns for each date.  The marker is written exactly after the dates
whose status lies in `TERMINAL`. -/
def rangeLoop (dayStatus : Nat → Status) : List Nat → RangeRun
  | [] => ⟨[], []⟩
  | date :: rest =>
    ⟨date :: (rangeLoop dayStatus rest).processed,
     (if TERMINAL (dayStatus date) then [date] else []) ++
       (rangeLoop dayStatus rest).savedStates⟩

/-- `saa.py`, `run_date_range_task` (lines 436-488): the resume logic over
the loaded marker (`_load_state`) followed by the processing loop.  The
`finally` block's `_clear_state()` and the summary report have no bearing
on the modelled observables. -/
def run_date_range_task (dayStatus : Nat → Status) (startD endD : Nat)
    (lastProcessed : Option Nat) : RangeRun :=
  match lastProcessed with
  | some lp =>
    if startD ≤ lp ∧ lp < endD then rangeLoop dayStatus (dateList (lp + 1) endD)
    else if endD ≤ lp then ⟨[], []⟩
    else if endD < startD then ⟨[], []⟩
    else rangeLoop dayStatus (dateList startD endD)
  | none =>
    if endD < startD then ⟨[], []⟩
    else rangeLoop dayStatus (dateList startD endD)

theorem rangeLoop_processed (dayStatus : Nat → Status) (dates : List Nat) :
    (rangeLoop dayStatus dates).processed = dates := by
  induction dates with
  | nil => rfl
  | cons d rest ih => simp [rangeLoop, ih]

theorem rangeLoop_savedStates (dayStatus : Nat → Status) (dates : List Nat) :
    (rangeLoop dayStatus dates).savedStates =
      dates.filter (fun d => TERMINAL (dayStatus d)) := by
  induction dates with
  | nil => rfl
  | cons d rest ih =>
    simp only [rangeLoop, ih, List.filter_cons]
    split <;> simp_all

theorem mem_dateList (a b d : Nat) : d ∈ dateList a b ↔ a ≤ d ∧ d ≤ b := by
  unfold dateList
  rw [List.mem_map]
  constructor
  · rintro ⟨k, hk, rfl⟩
    rw [List.mem_range] at hk
    omega
  · rintro ⟨h1, h2⟩
    exact ⟨d - a, by rw [List.mem_range]; omega, by omega⟩

theorem run_date_range_savedStates (dayStatus : Nat → Status)
    (startD endD : Nat) (lastProcessed : Option Nat) :
    (run_date_range_task dayStatus startD endD lastProcessed).savedStates =
      (run_date_range_task dayStatus startD endD lastProcessed).processed.filter
        (fun d => TERMINAL (dayStatus d)) := by
  cases lastProcessed with
  | none =>
    simp only [run_date_range_task]
    split
    · rfl
    · rw [rangeLoop_processed, rangeLoop_savedStates]
  | some lp =>
    simp only [run_date_range_task]
    split
    · rw [rangeLoop_processed, rangeLoop_savedStates]
    · split
      · rfl
      · split
        · rfl
        · rw [rangeLoop_processed, rangeLoop_savedStates]

/-- **C6.** In `run_date_range_task` the marker is saved exactly after the
dates whose status is terminal (`SUCCESS`, `SUCCESS_WITH_WARNINGS`,
`NO_ACTION_NEEDED`, `NO_CLASS`, `NOTHING_TO_SUBMIT`) — in particular only
after such dates — and when the loaded marker lies in
`[start_date, end_date)` the run processes exactly the days from the day
after the marker through `end_date`: every processed day is strictly later
than the already-completed marker day. -/
theorem run_date_range_resume (dayStatus : Nat → Status)
    (startD endD lp : Nat) (h1 : startD ≤ lp) (h2 : lp < endD) :
    (∀ st : Option Nat,
      (run_date_range_task dayStatus startD endD st).savedStates =
        (run_date_range_task dayStatus startD endD st).processed.filter
          (fun d => TERMINAL (dayStatus d))) ∧
    (run_date_range_task dayStatus startD endD (some lp)).processed =
      dateList (lp + 1) endD ∧
    (∀ d ∈ (run_date_range_task dayStatus startD endD (some lp)).processed,
      lp < d) := by
  have hres : run_date_range_task dayStatus startD endD (some lp) =
      rangeLoop dayStatus (dateList (lp + 1) endD) := by
    simp only [run_date_range_task]
    rw [if_pos (And.intro h1 h2)]
  refine ⟨fun st => run_date_range_savedStates dayStatus startD endD st, ?_, ?_⟩
  · rw [hres, rangeLoop_processed]
  · intro d hd
    rw [hres, rangeLoop_processed] at hd
    exact ((mem_dateList _ _ _).1 hd).1

/-- Evaluation witness for `run_date_range_resume`: marker 12 inside the
range 10-14 resumes at 13, and only terminal days are saved (day 13 fails
here, day 14 succeeds). -/
theorem run_date_range_resume_witness :
    (run_date_range_task
        (fun d => if d = 13 then Status.VERIFY_FAILED else Status.SUCCESS)
        10 14 (some 12)).processed = [13, 14] ∧
    (run_date_range_task
        (fun d => if d = 13 then Status.VERIFY_FAILED else Status.SUCCESS)
        10 14 (some 12)).savedStates = [14] := by
  have h := run_date_range_resume
    (fun d => if d = 13 then Status.VERIFY_FAILED else Status.SUCCESS)
    10 14 12 (by norm_num) (by norm_num)
  constructor
  · rw [h.2.1]
    decide
  · rw [h.1 (some 12), h.2.1]
    decide

/-! ### Exit codes of the two attendance mains -/

/-- `saa.py` lines 517 and 529: the statuses for which the single-day
modes reset `exit_code` from 1 to 0. -/
def saaGoodStatuses : List Status :=
  [.SUCCESS, .NO_CLASS, .NO_ACTION_NEEDED, .NOTHING_TO_SUBMIT]

/-- The mode `saa.py`'s `main` runs in after login: a single-day run
(menu choices 1 and 2, both using the same exit-code rule on the day's
status) or a date-range run (choice 3), carrying the statuses of the
processed days. -/
inductive SaaMode
  | singleDay (st : Status)
  | dateRange (dayStatuses : List Status)
deriving DecidableEq, Repr

/-- `saa.py`, `main` (lines 511-540): the process exit code of a run that
reaches `sys.exit(exit_code)`.  `exit_code` starts at 1; the single-day
modes set it to 0 iff the day's status is in `saaGoodStatuses`
(`SUCCESS_WITH_WARNINGS` is *not* in the set); choice 3 sets
`exit_code = 0` unconditionally after `run_date_range_task` returns,
whatever the per-day statuses were. -/
def saaMainExitCode : SaaMode → Nat
  | .singleDay st => if st ∈ saaGoodStatuses then 0 else 1
  | .dateRange _ => 0

/-- `attendance_script_robust.py`, `main` lines 1072-1095: the final
success determination from the session-invalid flag, the processing status
string and the verification outcome. -/
def robustFinalSuccess (sessionInvalid : Bool) (processStatus : String)
    (verifyOk : Bool) : Bool :=
  if sessionInvalid then false
  else if processStatus = "all_processed_successfully"
       || processStatus = "already_done" then verifyOk
  else if processStatus = "partially_processed" then verifyOk
  else false

/-- `attendance_script_robust.py`, `main` line 1140:
`if not final_success: sys.exit(1)` — exit code 1 on failure, implicit 0
otherwise. -/
def robustMainExitCode (finalSuccess : Bool) : Nat :=
  if finalSuccess then 0 else 1

/-- **C7, counterexample.** A date-range run (choice 3) containing a
failed day — here a single day ending `VERIFY_FAILED` — still exits with
code 0: `main` sets `exit_code = 0` unconditionally after
`run_date_range_task`, so the claim's "exits non-zero ... including when a
date-range run contains failed days" is false. -/
theorem saa_range_failure_exits_zero :
    saaMainExitCode (SaaMode.dateRange [Status.VERIFY_FAILED]) = 0 := by
  rfl

/-- **C7, amended.** `attendance_script_robust.py`'s `main` exits with
code 1 whenever the final status is not success; `saa.py`'s `main` exits
non-zero in the single-day modes whenever the day's status is not one of
`SUCCESS`, `NO_CLASS`, `NO_ACTION_NEEDED`, `NOTHING_TO_SUBMIT` (note this
excludes `SUCCESS_WITH_WARNINGS`); but a date-range run always exits 0,
regardless of failed days (failures there are only reported in the final
summary log). -/
theorem exit_codes_amended :
    (∀ si : Bool, ∀ ps : String, ∀ vb : Bool,
      robustFinalSuccess si ps vb = false →
      robustMainExitCode (robustFinalSuccess si ps vb) = 1) ∧
    (∀ st : Status, st ∉ saaGoodStatuses →
      saaMainExitCode (.singleDay st) = 1) ∧
    (∀ dayStatuses : List Status,
      saaMainExitCode (.dateRange dayStatuses) = 0) := by
  refine ⟨?_, ?_, ?_⟩
  · intro si ps vb h
    rw [robustMainExitCode, h]
    rfl
  · intro st hst
    rw [saaMainExitCode, if_neg hst]
  · intro dayStatuses
    rfl

/-- Evaluation witness for `exit_codes_amended` at concrete inputs: a
session-invalidated robust run exits 1, a `VERIFY_FAILED` single day exits
1 (and so does `SUCCESS_WITH_WARNINGS`), a date range exits 0. -/
theorem exit_codes_amended_witness :
    robustMainExitCode (robustFinalSuccess true "all_processed_successfully" true) = 1 ∧
    saaMainExitCode (.singleDay .VERIFY_FAILED) = 1 ∧
    saaMainExitCode (.singleDay .SUCCESS_WITH_WARNINGS) = 1 ∧
    saaMainExitCode (.dateRange [.SUCCESS, .VERIFY_FAILED]) = 0 := by
  refine ⟨exit_codes_amended.1 true "all_processed_successfully" true (by decide),
    exit_codes_amended.2.1 .VERIFY_FAILED (by decide),
    exit_codes_amended.2.1 .SUCCESS_WITH_WARNINGS (by decide),
    exit_codes_amended.2.2 [.SUCCESS, .VERIFY_FAILED]⟩

/-! ### saa.py — record construction in `submit_attendance_for_lesson_group` -/

/-- A class-group member as used by `submit_attendance_for_lesson_group`:
`sid` is `int(s["reflection"]["id"])`, `none` when missing or invalid. -/
structure Student where
  sid : Option Int
deriving DecidableEq, Repr

/-- One element of the `attendance_records` payload (`saa.py` line 287). -/
structure AttendanceRecord where
  tag : String
  attendance_time_id : Int
  owner_id : Int
  source : String
deriving DecidableEq, Repr

/-- The deduplication key used by the `seen` set (`saa.py` line 285). -/
def recordKey (r : AttendanceRecord) : Int × Int :=
  (r.attendance_time_id, r.owner_id)

/-- `saa.py` lines 275-288, inner loop: walk the students for one lesson's
`timeId`, appending a record and its key for each valid student whose
`(timeId, owner_id)` key is not yet in `seen`.  The accumulator is the
pair (records, seen). -/
def addStudents (timeId : Int) : List Student →
    List AttendanceRecord × List (Int × Int) →
    List AttendanceRecord × List (Int × Int)
  | [], acc => acc
  | s :: rest, acc =>
    match s.sid with
    | none => addStudents timeId rest acc
    | some o =>
      if acc.2.contains (timeId, o) then addStudents timeId rest acc
      else addStudents timeId rest
        (acc.1 ++ [⟨"正常", timeId, o, "web"⟩], acc.2 ++ [(timeId, o)])

/-- `saa.py` lines 264-288, outer loop: walk the lessons of the group,
skipping lessons with a missing or invalid attendance_time_id. -/
def buildRecordsAux (students : List Student) : List Lesson →
    List AttendanceRecord × List (Int × Int) →
    List AttendanceRecord × List (Int × Int)
  | [], acc => acc
  | l :: rest, acc =>
    match l.customId with
    | none => buildRecordsAux students rest acc
    | some t => buildRecordsAux students rest (addStudents t students acc)

/-- The `attendance_records` list built by
`submit_attendance_for_lesson_group` for a lesson group and its student
list. -/
def buildRecords (grp : List Lesson) (students : List Student) :
    List AttendanceRecord :=
  (buildRecordsAux students grp ([], [])).1

theorem addStudents_sync (timeId : Int) (ss : List Student) :
    ∀ acc : List AttendanceRecord × List (Int × Int),
      acc.2 = acc.1.map recordKey →
      (addStudents timeId ss acc).2 = (addStudents timeId ss acc).1.map recordKey := by
  induction ss with
  | nil => intro acc h; exact h
  | cons s rest ih =>
    intro acc h
    unfold addStudents
    cases s.sid with
    | none => exact ih acc h
    | some o =>
      simp only
      split
      · exact ih acc h
      · refine ih _ ?_
        simp [h, recordKey]

theorem addStudents_mono (timeId : Int) (ss : List Student) :
    ∀ acc : List AttendanceRecord × List (Int × Int), ∀ q : Int × Int,
      q ∈ acc.2 → q ∈ (addStudents timeId ss acc).2 := by
  induction ss with
  | nil => intro acc q h; exact h
  | cons s rest ih =>
    intro acc q h
    unfold addStudents
    cases s.sid with
    | none => exact ih acc q h
    | some o =>
      simp only
      split
      · exact ih acc q h
      · exact ih _ q (by simp [h])

theorem addStudents_nodup (timeId : Int) (ss : List Student) :
    ∀ acc : List AttendanceRecord × List (Int × Int),
      acc.2.Nodup → (addStudents timeId ss acc).2.Nodup := by
  induction ss with
  | nil => intro acc h; exact h
  | cons s rest ih =>
    intro acc h
    unfold addStudents
    cases s.sid with
    | none => exact ih acc h
    | some o =>
      simp only
      split
      · exact ih acc h
      · rename_i hnc
        refine ih _ ?_
        rw [List.nodup_append]
        refine ⟨h, List.nodup_singleton _, ?_⟩
        intro q hq
        simp only [List.mem_singleton]
        intro hq1
        subst hq1
        exact absurd hq (by simpa using hnc)

theorem addStudents_insert (timeId : Int) (ss : List Student) :
    ∀ acc : List AttendanceRecord × List (Int × Int), ∀ o : Int,
      (∃ s ∈ ss, s.sid = some o) →
      (timeId, o) ∈ (addStudents timeId ss acc).2 := by
  induction ss with
  | nil => intro acc o h; simp at h
  | cons s rest ih =>
    intro acc o h
    obtain ⟨s1, hs1, hsid⟩ := h
    rw [List.mem_cons] at hs1
    unfold addStudents
    rcases hs1 with hs1 | hs1
    · subst hs1
      rw [hsid]
      simp only
      split
      · rename_i hc
        apply addStudents_mono
        simpa using hc
      · apply addStudents_mono
        simp
    · cases hsid2 : s.sid with
      | none => exact ih acc o ⟨s1, hs1, hsid⟩
      | some o2 =>
        simp only
        split
        · exact ih acc o ⟨s1, hs1, hsid⟩
        · exact ih _ o ⟨s1, hs1, hsid⟩

theorem addStudents_tags (timeId : Int) (ss : List Student) :
    ∀ acc : List AttendanceRecord × List (Int × Int),
      ∀ r ∈ (addStudents timeId ss acc).1,
        r ∈ acc.1 ∨ (r.tag = "正常" ∧ r.source = "web") := by
  induction ss with
  | nil => intro acc r h; exact Or.inl h
  | cons s rest ih =>
    intro acc r h
    unfold addStudents at h
    cases hsid : s.sid with
    | none =>
      rw [hsid] at h
      exact ih acc r h
    | some o =>
      rw [hsid] at h
      simp only at h
      split at h
      · exact ih acc r h
      · rcases ih _ r h with hmem | htag
        · rw [List.mem_append] at hmem
          rcases hmem with hmem | hmem
          · exact Or.inl hmem
          · rw [List.mem_singleton] at hmem
            subst hmem
            exact Or.inr ⟨rfl, rfl⟩
        · exact Or.inr htag

theorem buildRecordsAux_sync (students : List Student) (grp : List Lesson) :
    ∀ acc : List AttendanceRecord × List (Int × Int),
      acc.2 = acc.1.map recordKey →
      (buildRecordsAux students grp acc).2 =
        (buildRecordsAux students grp acc).1.map recordKey := by
  induction grp with
  | nil => intro acc h; exact h
  | cons l rest ih =>
    intro acc h
    unfold buildRecordsAux
    cases l.customId with
    | none => exact ih acc h
    | some t => exact ih _ (addStudents_sync t students acc h)

theorem buildRecordsAux_mono (students : List Student) (grp : List Lesson) :
    ∀ acc : List AttendanceRecord × List (Int × Int), ∀ q : Int × Int,
      q ∈ acc.2 → q ∈ (buildRecordsAux students grp acc).2 := by
  induction grp with
  | nil => intro acc q h; exact h
  | cons l rest ih =>
    intro acc q h
    unfold buildRecordsAux
    cases l.customId with
    | none => exact ih acc q h
    | some t => exact ih _ q (addStudents_mono t students acc q h)

theorem buildRecordsAux_nodup (students : List Student) (grp : List Lesson) :
    ∀ acc : List AttendanceRecord × List (Int × Int),
      acc.2.Nodup → (buildRecordsAux students grp acc).2.Nodup := by
  induction grp with
  | nil => intro acc h; exact h
  | cons l rest ih =>
    intro acc h
    unfold buildRecordsAux
    cases l.customId with
    | none => exact ih acc h
    | some t => exact ih _ (addStudents_nodup t students acc h)

theorem buildRecordsAux_insert (students : List Student) (grp : List Lesson) :
    ∀ acc : List AttendanceRecord × List (Int × Int), ∀ t o : Int,
      (∃ l ∈ grp, l.customId = some t) → (∃ s ∈ students, s.sid = some o) →
      (t, o) ∈ (buildRecordsAux students grp acc).2 := by
  induction grp with
  | nil => intro acc t o h _; simp at h
  | cons l rest ih =>
    intro acc t o hl hs
    obtain ⟨l1, hl1, hcid⟩ := hl
    rw [List.mem_cons] at hl1
    unfold buildRecordsAux
    rcases hl1 with hl1 | hl1
    · subst hl1
      rw [hcid]
      exact buildRecordsAux_mono students rest _ (t, o)
        (addStudents_insert t students acc o hs)
    · cases l.customId with
      | none => exact ih acc t o ⟨l1, hl1, hcid⟩ hs
      | some t2 => exact ih _ t o ⟨l1, hl1, hcid⟩ hs

theorem buildRecordsAux_tags (students : List Student) (grp : List Lesson) :
    ∀ acc : List AttendanceRecord × List (Int × Int),
      ∀ r ∈ (buildRecordsAux students grp acc).1,
        r ∈ acc.1 ∨ (r.tag = "正常" ∧ r.source = "web") := by
  induction grp with
  | nil => intro acc r h; exact Or.inl h
  | cons l rest ih =>
    intro acc r h
    unfold buildRecordsAux at h
    cases hcid : l.customId with
    | none =>
      rw [hcid] at h
      exact ih acc r h
    | some t =>
      rw [hcid] at h
      rcases ih _ r h with hmem | htag
      · rcases addStudents_tags t students acc r hmem with hmem2 | htag2
        · exact Or.inl hmem2
        · exact Or.inr htag2
      · exact Or.inr htag

/-- **C9.** The `attendance_records` list built by
`submit_attendance_for_lesson_group` never contains two records with the
same `(attendance_time_id, owner_id)` pair (the mapped keys are nodup);
every record is tagged `"正常"` (with source `"web"`); and each valid
lesson-student pair — a lesson of the group with a valid
attendance_time_id and a student with a valid reflection id — yields
exactly one record with that key. -/
theorem submit_records_unique_and_tagged (grp : List Lesson)
    (students : List Student) :
    ((buildRecords grp students).map recordKey).Nodup ∧
    (∀ r ∈ buildRecords grp students, r.tag = "正常" ∧ r.source = "web") ∧
    (∀ l ∈ grp, ∀ s ∈ students, ∀ t o : Int,
      l.customId = some t → s.sid = some o →
      ((buildRecords grp students).filter
        (fun r => decide (recordKey r = (t, o)))).length = 1) := by
  have hsync : (buildRecordsAux students grp ([], [])).2 =
      (buildRecords grp students).map recordKey :=
    buildRecordsAux_sync students grp ([], []) rfl
  have hnodup : ((buildRecords grp students).map recordKey).Nodup := by
    rw [← hsync]
    exact buildRecordsAux_nodup students grp ([], []) List.nodup_nil
  refine ⟨hnodup, ?_, ?_⟩
  · intro r hr
    rcases buildRecordsAux_tags students grp ([], []) r hr with hmem | htag
    · simp at hmem
    · exact htag
  · intro l hl s hs t o hcid hsid
    have hmem : (t, o) ∈ (buildRecords grp students).map recordKey := by
      rw [← hsync]
      exact buildRecordsAux_insert students grp ([], []) t o
        ⟨l, hl, hcid⟩ ⟨s, hs, hsid⟩
    have h1 : ((buildRecords grp students).map recordKey).countP
        (fun q => decide (q = (t, o))) = 1 :=
      List.count_eq_one_of_mem hnodup hmem
    rw [List.countP_map] at h1
    rw [← List.countP_eq_length_filter]
    exact h1

/-- Evaluation witness for `submit_records_unique_and_tagged`: a group of
two sessions of the same class sharing one attendance_time_id and one
student produces exactly one record, tagged correctly. -/
theorem submit_records_unique_and_tagged_witness :
    buildRecords [⟨"math A", some 1, some 10⟩, ⟨"math B", some 1, some 10⟩]
        [⟨some 7⟩] = [⟨"正常", 1, 7, "web"⟩] ∧
    ((buildRecords [⟨"math A", some 1, some 10⟩, ⟨"math B", some 1, some 10⟩]
        [⟨some 7⟩]).filter (fun r => decide (recordKey r = (1, 7)))).length = 1 := by
  refine ⟨by decide, ?_⟩
  exact (submit_records_unique_and_tagged
      [⟨"math A", some 1, some 10⟩, ⟨"math B", some 1, some 10⟩]
      [⟨some 7⟩]).2.2
    ⟨"math A", some 1, some 10⟩ (by decide) ⟨some 7⟩ (by decide) 1 7 rfl rfl

end Bdfz
